import Mathlib

/-!
A shallow embedding of `bulk_uploader.js` from the ghost-bulk-publisher
repository, together with theorems checking the repository's specification
against it.

The script is a sequential pipeline (publishPosts, lines 86-118):
  * it resolves `srcDir = path.resolve(__dirname, 'src')`,
  * reads `POST_STATUS` (defaulting to `'draft'` via JS `||`),
  * lists the first-level directories of `srcDir`,
  * for each such directory, lists its entries, keeps the names ending in
    `.md`, converts each through pandoc (convertMarkdownToHtml, lines 47-56),
    and, when the trimmed output is truthy, calls the Ghost Admin API
    `api.posts.add(payload, \x7b source: 'html' \x7d)` (publishPost, lines 66-80).

The embedding is parameterised by:
  * `dirname` — the script's `__dirname`;
  * `Env` — the relevant environment variables (an unset variable is `none`);
  * `FS` — the outcome of the two kinds of `fs.readdir` calls the script
    makes (`none` models a rejected readdir: ENOENT, EACCES, ...);
  * `conv` — the outcome of the pandoc subprocess per file path (`none`
    models a non-zero exit / spawn error, `some out` captured stdout);
  * `apiOk` — the outcome of each Ghost API request (`false` models a
    rejected promise: auth, network or validation error).

A run is summarised as a trace of external events (subprocess spawns and
API requests), the error-relevant console lines, and whether the
`catch` block of `publishPosts` was entered.
-/

/-- JS string truthiness/default: `v || d` where `v` is a possibly-undefined
environment variable (line 90: `process.env.POST_STATUS || 'draft'`).
The empty string is falsy in JS. -/
def jsOr (v : Option String) (d : String) : String :=
  match v with
  | some s => if s.isEmpty then d else s
  | none => d

/-- JS `s.endsWith(suffix)` (line 101): an exact, case-sensitive suffix test. -/
def jsEndsWith (s suffix : String) : Bool :=
  suffix.data.isSuffixOf s.data

/-- Characters trimmed by JS `String.prototype.trim` that pandoc output could
plausibly contain (ASCII whitespace; JS also trims a few Unicode space
characters, irrelevant here). Used for line 51: `htmlContent.trim()`. -/
def jsIsWs (c : Char) : Bool :=
  c = ' ' ∨ c = '\t' ∨ c = '\n' ∨ c = '\r' ∨ c = '\x0b' ∨ c = '\x0c'

/-- JS `s.trim()` (line 51). -/
def jsTrim (s : String) : String :=
  ⟨(s.data.dropWhile jsIsWs).reverse.dropWhile jsIsWs |>.reverse⟩

/-- `path.join(a, b)` / `path.resolve(a, b)` for an absolute `a` and a
relative, already-normalised `b`, the only ways the script uses them
(lines 87, 100, 107). -/
def pjoin (a b : String) : String :=
  a ++ "/" ++ b

/-- Helper for `parseName`: scan the reversed character list of a base name
for its last `.`; returns the (reversed) characters before that dot. -/
def nameBeforeLastDot : List Char → Option (List Char)
  | [] => none
  | c :: cs => if c = '.' then some cs else nameBeforeLastDot cs

/-- Node's `path.parse(base).name` for a plain base name with no path
separators (line 106).  Node strips the extension starting at the last `.`,
except when that `.` is the first character of the base name (dotfiles such
as `.md` have no extension) and for the special name `..`. -/
def parseName (b : String) : String :=
  if b = ".." then b
  else
    match nameBeforeLastDot b.data.reverse with
    | none => b
    | some [] => b
    | some cs => ⟨cs.reverse⟩

/-- A directory entry as returned by `fs.readdir(..., \x7b withFileTypes: true \x7d)`
(line 93). -/
structure Dirent where
  name : String
  isDir : Bool
  deriving DecidableEq, Repr

/-- The outcomes of the script's filesystem reads.  `rootEntries` is the
listing of `srcDir` (line 93); `dirEntries p` is the listing of the
directory at path `p` (line 101).  `none` is a rejected `readdir`. -/
structure FS where
  rootEntries : Option (List Dirent)
  dirEntries : String → Option (List String)

/-- The environment variables the script reads. -/
structure Env where
  ghostApiUrl : Option String
  ghostAdminApiKey : Option String
  postStatus : Option String
  deriving DecidableEq, Repr

/-- Methods of the Ghost Admin API posts resource.  The script only ever
invokes `api.posts.add` (line 69); the other methods exist on the client
but are never called. -/
inductive ApiMethod where
  | add
  | edit
  | browse
  | destroy
  deriving DecidableEq, Repr

/-- One element of the payload's `tags` array: `\x7b name: tag \x7d` (line 72). -/
structure TagRef where
  name : String
  deriving DecidableEq, Repr

/-- The create-post payload (lines 69-74): exactly `title`, `html`, `tags`
and `status`. -/
structure PostPayload where
  title : String
  html : String
  tags : List TagRef
  status : String
  deriving DecidableEq, Repr

/-- One request to the Ghost Admin API: the method, the payload and the
options object (`\x7b source: 'html' \x7d`, line 74). -/
structure ApiCall where
  method : ApiMethod
  payload : PostPayload
  source : String
  deriving DecidableEq, Repr

/-- An externally visible action of a run: spawning the pandoc subprocess
on a file (line 50), or issuing an API request while processing a file
(line 69).  `ok` records whether the request succeeded. -/
inductive Event where
  | convert (path : String)
  | request (path : String) (call : ApiCall) (ok : Bool)
  deriving DecidableEq, Repr

/-- The file path an event concerns. -/
def Event.path : Event → String
  | .convert p => p
  | .request p _ _ => p

/-- The error-relevant console lines of a run. -/
inductive LogLine where
  | sourceDir (d : String)
  | convertError (p : String)
  | publishError (title : String)
  | fatalDirError
  deriving DecidableEq, Repr

/-- The observable summary of one invocation of `publishPosts`. -/
structure RunOutput where
  trace : List Event
  logs : List LogLine
  aborted : Bool
  deriving DecidableEq, Repr

/-- `convertMarkdownToHtml` (lines 47-56): run pandoc on the file; on
success return the trimmed stdout, on any subprocess error log and
return `null`. -/
def convertMarkdownToHtml (conv : String → Option String) (filePath : String) :
    Option String :=
  match conv filePath with
  | some htmlContent => some (jsTrim htmlContent)
  | none => none

/-- The request `publishPost` builds (lines 69-74): `api.posts.add` with
payload `\x7b title, html, tags: [\x7b name: tag \x7d], status \x7d` and options
`\x7b source: 'html' \x7d`. -/
def mkCall (title html tag status : String) : ApiCall :=
  { method := .add
    payload := { title := title, html := html, tags := [⟨tag⟩], status := status }
    source := "html" }

/-- `publishPost` (lines 66-80): build the create-post request, await it,
and swallow any rejection after logging it.  Returns the request made,
whether it succeeded, and the error line logged on failure (success is
logged with `console.log`, which is not an error-relevant line).  In both
branches the function returns normally: the `catch` keeps a rejected
request from propagating to the caller. -/
def publishPost (apiOk : ApiCall → Bool) (title html tag status : String) :
    ApiCall × Bool × Option LogLine :=
  let call := mkCall title html tag status
  let ok := apiOk call
  (call, ok, if ok then none else some (.publishError title))

/-- The body of the inner loop of `publishPosts` (lines 105-113) for one
entry `mdFile` of the tag directory at `tagPath`. -/
def processFile (conv : String → Option String) (apiOk : ApiCall → Bool)
    (tagPath tag status mdFile : String) : List Event × List LogLine :=
  let title := parseName mdFile
  let markdownPath := pjoin tagPath mdFile
  match convertMarkdownToHtml conv markdownPath with
  | none => ([.convert markdownPath], [.convertError markdownPath])
  | some htmlData =>
    if htmlData.isEmpty then
      ([.convert markdownPath], [])
    else
      let (call, ok, log) := publishPost apiOk title htmlData tag status
      ([.convert markdownPath, .request markdownPath call ok], log.toList)

/-- One iteration of the outer loop of `publishPosts` (lines 98-113) for a
tag directory named `tag` whose listing succeeded with `entries`. -/
def processGroup (conv : String → Option String) (apiOk : ApiCall → Bool)
    (srcDir status tag : String) (entries : List String) :
    List Event × List LogLine :=
  let tagPath := pjoin srcDir tag
  let mdFiles := entries.filter (fun file => jsEndsWith file ".md")
  let results := mdFiles.map (processFile conv apiOk tagPath tag status)
  (results.flatMap Prod.fst, results.flatMap Prod.snd)

/-- The outer loop of `publishPosts` over the first-level directories
(lines 98-114).  A failing `fs.readdir` on a tag directory throws, which the
`catch` at lines 115-117 turns into a logged fatal error ending the run. -/
def runGroups (fs : FS) (conv : String → Option String) (apiOk : ApiCall → Bool)
    (srcDir status : String) : List Dirent → RunOutput
  | [] => { trace := [], logs := [], aborted := false }
  | d :: rest =>
    match fs.dirEntries (pjoin srcDir d.name) with
    | none => { trace := [], logs := [.fatalDirError], aborted := true }
    | some entries =>
      let (es, ls) := processGroup conv apiOk srcDir status d.name entries
      let r := runGroups fs conv apiOk srcDir status rest
      { trace := es ++ r.trace, logs := ls ++ r.logs, aborted := r.aborted }

/-- `publishPosts` (lines 86-118). -/
def publishPosts (dirname : String) (env : Env) (fs : FS)
    (conv : String → Option String) (apiOk : ApiCall → Bool) : RunOutput :=
  let srcDir := pjoin dirname "src"
  let status := jsOr env.postStatus "draft"
  match fs.rootEntries with
  | none =>
    { trace := [], logs := [.sourceDir srcDir, .fatalDirError], aborted := true }
  | some tagDirs =>
    let r := runGroups fs conv apiOk srcDir status (tagDirs.filter Dirent.isDir)
    { trace := r.trace, logs := .sourceDir srcDir :: r.logs, aborted := r.aborted }

/-- The main IIFE (lines 121-124): it awaits `publishPosts`, which catches
every error itself, so the node process always exits with code 0. -/
def mainRun (dirname : String) (env : Env) (fs : FS)
    (conv : String → Option String) (apiOk : ApiCall → Bool) : RunOutput × Nat :=
  (publishPosts dirname env fs conv apiOk, 0)

/-- Running the program twice on the same, unchanged inputs: nothing is
persisted between runs, so the second invocation sees exactly the same
`fs`, `env`, `conv` and `apiOk`. -/
def mainRunTwice (dirname : String) (env : Env) (fs : FS)
    (conv : String → Option String) (apiOk : ApiCall → Bool) : List Event × Nat :=
  let (r1, _) := mainRun dirname env fs conv apiOk
  let (r2, code) := mainRun dirname env fs conv apiOk
  (r1.trace ++ r2.trace, code)

/-- The API requests among a list of events, in order. -/
def traceRequests (l : List Event) : List ApiCall :=
  l.filterMap (fun e =>
    match e with
    | .request _ c _ => some c
    | .convert _ => none)

/-- The converter spawns among a list of events, in order. -/
def traceConverts (l : List Event) : List String :=
  l.filterMap (fun e =>
    match e with
    | .convert p => some p
    | .request _ _ _ => none)

/-- The API requests a run issued, in order. -/
def requests (r : RunOutput) : List ApiCall :=
  traceRequests r.trace

/-- The file paths a run spawned the converter on, in order. -/
def convertedPaths (r : RunOutput) : List String :=
  traceConverts r.trace

/-- Erase the success flag of request events; two traces equal after
`eventShape` perform the same external actions, differing only in how the
remote API answered. -/
def eventShape : Event → Event
  | .convert p => .convert p
  | .request p c _ => .request p c true

/-- The tag names attached to the requests of a run, in order.  Each
request carries exactly one tag (line 72), so this lists one name per
request. -/
def requestTags (r : RunOutput) : List String :=
  (requests r).flatMap (fun c => c.payload.tags.map TagRef.name)

/-- Spec-side definition (for comparison with the code): the Scanner
contract of spec §4.1 — the Markdown file paths directly inside each
first-level subdirectory of the content root, no recursion, keeping
exactly the entries with a case-sensitive `.md` suffix. -/
def specScanMdPaths (fs : FS) (srcDir : String) : List String :=
  match fs.rootEntries with
  | none => []
  | some tagDirs =>
    (tagDirs.filter Dirent.isDir).flatMap (fun d =>
      match fs.dirEntries (pjoin srcDir d.name) with
      | none => []
      | some entries =>
        (entries.filter (fun f => jsEndsWith f ".md")).map
          (fun f => pjoin (pjoin srcDir d.name) f))

/-- Spec-side definition (for comparison with the code): the post title the
spec promises — "the file's base name with the `.md` extension stripped". -/
def specTitle (f : String) : String :=
  ⟨f.data.take (f.data.length - 3)⟩

/- Concrete instances used to witness the theorems below. -/

/-- API oracle that accepts every request. -/
def apiTrue : ApiCall → Bool := fun _ => true

/-- API oracle that rejects every request. -/
def apiFalse : ApiCall → Bool := fun _ => false

/-- A configuration with `POST_STATUS` unset. -/
def envDraft : Env :=
  { ghostApiUrl := some "https://blog.example", ghostAdminApiKey := some "key"
    postStatus := none }

/-- A configuration with `POST_STATUS` set to the empty string. -/
def envEmptyStatus : Env :=
  { ghostApiUrl := some "https://blog.example", ghostAdminApiKey := some "key"
    postStatus := some "" }

/-- A configuration whose every variable is the string `/content`. -/
def envContent : Env :=
  { ghostApiUrl := some "/content", ghostAdminApiKey := some "/content"
    postStatus := some "/content" }

/-- A root with one tag directory `tagA` holding one good file `post1.md`. -/
def fsOne : FS :=
  { rootEntries := some [⟨"tagA", true⟩]
    dirEntries := fun p => if p = "/app/src/tagA" then some ["post1.md"] else none }

/-- A converter succeeding on `post1.md` with padded output. -/
def convOne : String → Option String :=
  fun p => if p = "/app/src/tagA/post1.md" then some "  <p>one</p>\n" else none

/-- A root with one tag directory `tagA` holding a file named exactly `.md`. -/
def fsDot : FS :=
  { rootEntries := some [⟨"tagA", true⟩]
    dirEntries := fun p => if p = "/app/src/tagA" then some [".md"] else none }

/-- A converter succeeding on the `.md` file. -/
def convDot : String → Option String :=
  fun p => if p = "/app/src/tagA/.md" then some "<p>dot</p>" else none

/-- A root with one tag directory `tagA` that is empty. -/
def fsEmptyDir : FS :=
  { rootEntries := some [⟨"tagA", true⟩]
    dirEntries := fun p => if p = "/app/src/tagA" then some [] else none }

/-- A root with one tag directory holding a failing file and a good file. -/
def fsTwo : FS :=
  { rootEntries := some [⟨"tagA", true⟩]
    dirEntries := fun p =>
      if p = "/app/src/tagA" then some ["bad.md", "good.md"] else none }

/-- A converter failing on `bad.md` and succeeding on `good.md`. -/
def convTwo : String → Option String :=
  fun p => if p = "/app/src/tagA/good.md" then some "<p>good</p>" else none

/-- Like `convTwo` but also succeeding on `bad.md`. -/
def convTwoAll : String → Option String :=
  fun p =>
    if p = "/app/src/tagA/bad.md" then some "<p>bad</p>"
    else if p = "/app/src/tagA/good.md" then some "<p>good</p>"
    else none

/-- A converter producing whitespace-only output on `bad.md` and real
output on `good.md`. -/
def convTwoWs : String → Option String :=
  fun p =>
    if p = "/app/src/tagA/bad.md" then some " \n\t "
    else if p = "/app/src/tagA/good.md" then some "<p>good</p>"
    else none

/-- A root with two tag directories where listing `tagA` fails. -/
def fsFailA : FS :=
  { rootEntries := some [⟨"tagA", true⟩, ⟨"tagB", true⟩]
    dirEntries := fun p => if p = "/app/src/tagB" then some ["post2.md"] else none }

/-- A converter succeeding on `post2.md`. -/
def convB : String → Option String :=
  fun p => if p = "/app/src/tagB/post2.md" then some "<p>two</p>" else none

/-! ### Helper lemmas -/

theorem jsEndsWith_md_iff (f : String) :
    jsEndsWith f ".md" = true ↔ ∃ g : List Char, f.data = g ++ ['.', 'm', 'd'] := by
  unfold jsEndsWith
  rw [List.isSuffixOf_iff_suffix]
  constructor
  · rintro ⟨t, ht⟩
    exact ⟨t, ht.symm⟩
  · rintro ⟨g, hg⟩
    exact ⟨g, hg.symm⟩

theorem parseName_append_md (g : List Char) (hg : g ≠ []) :
    parseName ⟨g ++ ['.', 'm', 'd']⟩ = ⟨g⟩ := by
  have hne : (⟨g ++ ['.', 'm', 'd']⟩ : String) ≠ ".." := by
    intro h
    have hdata : g ++ ['.', 'm', 'd'] = ['.', '.'] := congrArg String.data h
    have hlen := congrArg List.length hdata
    simp at hlen
  have hrev : (String.mk (g ++ ['.', 'm', 'd'])).data.reverse
      = 'd' :: 'm' :: '.' :: g.reverse := by
    simp
  obtain ⟨c, cs, hcs⟩ : ∃ c cs, g.reverse = c :: cs := by
    cases hrev' : g.reverse with
    | nil => exact absurd (List.reverse_eq_nil_iff.mp hrev') hg
    | cons c cs => exact ⟨c, cs, rfl⟩
  rw [parseName, if_neg hne, hrev]
  rw [show nameBeforeLastDot ('d' :: 'm' :: '.' :: g.reverse) = some g.reverse by
    simp [nameBeforeLastDot]]
  rw [hcs]
  simp [← hcs]

theorem specTitle_append_md (g : List Char) :
    specTitle ⟨g ++ ['.', 'm', 'd']⟩ = ⟨g⟩ := by
  simp [specTitle]

/-- For every name ending in `.md` other than `.md` itself, the code's
title (`path.parse(name).name`) equals the spec's title (name with the
`.md` suffix stripped). -/
theorem parseName_eq_specTitle (f : String) (hmd : jsEndsWith f ".md" = true)
    (hne : f ≠ ".md") : parseName f = specTitle f := by
  obtain ⟨g, hg⟩ := (jsEndsWith_md_iff f).mp hmd
  have hgne : g ≠ [] := by
    intro h
    apply hne
    apply String.ext
    rw [hg, h]
    rfl
  have hf : f = ⟨g ++ ['.', 'm', 'd']⟩ := String.ext hg
  rw [hf, parseName_append_md g hgne, specTitle_append_md]

/-- The trace of one file's processing, written out by cases on the
converter's outcome. -/
theorem processFile_fst (conv : String → Option String) (apiOk : ApiCall → Bool)
    (tagPath tag status f : String) :
    (processFile conv apiOk tagPath tag status f).1 =
      match conv (pjoin tagPath f) with
      | none => [.convert (pjoin tagPath f)]
      | some out =>
        if (jsTrim out).isEmpty then [.convert (pjoin tagPath f)]
        else
          [.convert (pjoin tagPath f),
           .request (pjoin tagPath f)
             (mkCall (parseName f) (jsTrim out) tag status)
             (apiOk (mkCall (parseName f) (jsTrim out) tag status))] := by
  cases h : conv (pjoin tagPath f) with
  | none => simp [processFile, convertMarkdownToHtml, h]
  | some out =>
    by_cases he : (jsTrim out).isEmpty
    · simp [processFile, convertMarkdownToHtml, h, he]
    · simp [processFile, convertMarkdownToHtml, publishPost, h, he]

/-- Every event of one file's processing concerns that file's path. -/
theorem processFile_path {conv : String → Option String} {apiOk : ApiCall → Bool}
    {tagPath tag status f : String} {e : Event}
    (he : e ∈ (processFile conv apiOk tagPath tag status f).1) :
    e.path = pjoin tagPath f := by
  rw [processFile_fst] at he
  cases h : conv (pjoin tagPath f) with
  | none =>
    rw [h] at he
    simp at he
    simp [he, Event.path]
  | some out =>
    rw [h] at he
    by_cases hemp : (jsTrim out).isEmpty
    · simp [hemp] at he
      simp [he, Event.path]
    · simp [hemp] at he
      rcases he with he | he <;> simp [he, Event.path]

/-- Processing one file consults the converter only at that file's path:
two converters that agree there process the file identically. -/
theorem processFile_congr {conv conv' : String → Option String}
    (apiOk : ApiCall → Bool) (tagPath tag status f : String)
    (h : conv (pjoin tagPath f) = conv' (pjoin tagPath f)) :
    processFile conv apiOk tagPath tag status f
      = processFile conv' apiOk tagPath tag status f := by
  simp [processFile, convertMarkdownToHtml, h]

/-- The trace of one group is the concatenation of its files' traces. -/
theorem processGroup_fst (conv : String → Option String) (apiOk : ApiCall → Bool)
    (srcDir status tag : String) (entries : List String) :
    (processGroup conv apiOk srcDir status tag entries).1 =
      (entries.filter (fun f => jsEndsWith f ".md")).flatMap
        (fun f => (processFile conv apiOk (pjoin srcDir tag) tag status f).1) := by
  simp [processGroup, List.flatMap_map, Function.comp]

/-- The logs of one group are the concatenation of its files' logs. -/
theorem processGroup_snd (conv : String → Option String) (apiOk : ApiCall → Bool)
    (srcDir status tag : String) (entries : List String) :
    (processGroup conv apiOk srcDir status tag entries).2 =
      (entries.filter (fun f => jsEndsWith f ".md")).flatMap
        (fun f => (processFile conv apiOk (pjoin srcDir tag) tag status f).2) := by
  simp [processGroup, List.flatMap_map, Function.comp]

/-- Origin of an event of the outer loop: it belongs to the processing of
some `.md` entry of some listed directory of the list. -/
theorem mem_runGroups_trace {fs : FS} {conv : String → Option String}
    {apiOk : ApiCall → Bool} {srcDir status : String} {ds : List Dirent} {e : Event}
    (he : e ∈ (runGroups fs conv apiOk srcDir status ds).trace) :
    ∃ d ∈ ds, ∃ entries, fs.dirEntries (pjoin srcDir d.name) = some entries ∧
      ∃ f ∈ entries, jsEndsWith f ".md" = true ∧
        e ∈ (processFile conv apiOk (pjoin srcDir d.name) d.name status f).1 := by
  induction ds with
  | nil => simp [runGroups] at he
  | cons d rest ih =>
    rw [runGroups] at he
    cases hd : fs.dirEntries (pjoin srcDir d.name) with
    | none => rw [hd] at he; simp at he
    | some entries =>
      rw [hd] at he
      simp only [List.mem_append] at he
      rcases he with he | he
      · rw [processGroup_fst] at he
        rw [List.mem_flatMap] at he
        obtain ⟨f, hf, hef⟩ := he
        rw [List.mem_filter] at hf
        exact ⟨d, List.mem_cons_self d rest, entries, hd, f, hf.1, hf.2, hef⟩
      · obtain ⟨d', hd', rest'⟩ := ih he
        exact ⟨d', List.mem_cons_of_mem d hd', rest'⟩

/-- Characterisation of a request event of one file's processing. -/
theorem processFile_request {conv : String → Option String} {apiOk : ApiCall → Bool}
    {tagPath tag status f p : String} {c : ApiCall} {ok : Bool}
    (he : Event.request p c ok ∈ (processFile conv apiOk tagPath tag status f).1) :
    p = pjoin tagPath f ∧ ∃ out, conv p = some out ∧ (jsTrim out).isEmpty = false ∧
      c = mkCall (parseName f) (jsTrim out) tag status ∧ ok = apiOk c := by
  rw [processFile_fst] at he
  cases h : conv (pjoin tagPath f) with
  | none => rw [h] at he; simp at he
  | some out =>
    rw [h] at he
    by_cases hemp : (jsTrim out).isEmpty
    · simp [hemp] at he
    · simp [hemp] at he
      obtain ⟨hp, hc, hok⟩ := he
      subst hp
      refine ⟨rfl, out, h, by simpa using hemp, hc, ?_⟩
      rw [hc]
      exact hok

/-- Completeness: a file whose conversion succeeds with non-whitespace
output produces its request event. -/
theorem processFile_request_mem (conv : String → Option String)
    (apiOk : ApiCall → Bool) (tagPath tag status f out : String)
    (hc : conv (pjoin tagPath f) = some out) (hne : (jsTrim out).isEmpty = false) :
    Event.request (pjoin tagPath f) (mkCall (parseName f) (jsTrim out) tag status)
        (apiOk (mkCall (parseName f) (jsTrim out) tag status))
      ∈ (processFile conv apiOk tagPath tag status f).1 := by
  rw [processFile_fst, hc]
  simp [hne]

/-- The converter spawns of one file's processing: exactly one, on the
file's path, whatever the converter and the API answer. -/
theorem traceConverts_processFile (conv : String → Option String)
    (apiOk : ApiCall → Bool) (tagPath tag status f : String) :
    traceConverts (processFile conv apiOk tagPath tag status f).1
      = [pjoin tagPath f] := by
  rw [processFile_fst]
  cases h : conv (pjoin tagPath f) with
  | none => simp [traceConverts]
  | some out =>
    by_cases hemp : (jsTrim out).isEmpty <;> simp [hemp, traceConverts]

/-- An aborting outer loop: as soon as one directory of the list cannot be
listed, everything after it is ignored. -/
theorem runGroups_append_fail (fs : FS) (conv : String → Option String)
    (apiOk : ApiCall → Bool) (srcDir status : String) (ds₁ : List Dirent)
    (d : Dirent) (ds₂ ds₂' : List Dirent)
    (hd : fs.dirEntries (pjoin srcDir d.name) = none) :
    runGroups fs conv apiOk srcDir status (ds₁ ++ d :: ds₂)
      = runGroups fs conv apiOk srcDir status (ds₁ ++ d :: ds₂') := by
  induction ds₁ with
  | nil => simp [runGroups, hd]
  | cons d₀ rest ih =>
    simp only [List.cons_append, runGroups]
    cases h₀ : fs.dirEntries (pjoin srcDir d₀.name) with
    | none => rfl
    | some entries => simp [ih]

/-- If some directory of the list cannot be listed, the outer loop ends in
the aborted state. -/
theorem runGroups_aborted_of_fail {fs : FS} {conv : String → Option String}
    {apiOk : ApiCall → Bool} {srcDir status : String} {ds : List Dirent}
    {d : Dirent} (hmem : d ∈ ds)
    (hd : fs.dirEntries (pjoin srcDir d.name) = none) :
    (runGroups fs conv apiOk srcDir status ds).aborted = true := by
  induction ds with
  | nil => simp at hmem
  | cons d₀ rest ih =>
    rw [runGroups]
    cases h₀ : fs.dirEntries (pjoin srcDir d₀.name) with
    | none => rfl
    | some entries =>
      rcases List.mem_cons.mp hmem with heq | hmem'
      · subst heq
        rw [h₀] at hd
        exact absurd hd (by simp)
      · simpa using ih hmem'

/-- A fully readable outer loop: the run never aborts and its trace is the
concatenation of the groups' traces. -/
theorem runGroups_of_readable {fs : FS} {conv : String → Option String}
    {apiOk : ApiCall → Bool} {srcDir status : String} {ds : List Dirent}
    (hread : ∀ d ∈ ds, fs.dirEntries (pjoin srcDir d.name) ≠ none) :
    (runGroups fs conv apiOk srcDir status ds).trace =
      ds.flatMap (fun d =>
        match fs.dirEntries (pjoin srcDir d.name) with
        | none => []
        | some entries => (processGroup conv apiOk srcDir status d.name entries).1)
    ∧ (runGroups fs conv apiOk srcDir status ds).aborted = false := by
  induction ds with
  | nil => simp [runGroups]
  | cons d rest ih =>
    have hd := hread d (List.mem_cons_self d rest)
    obtain ⟨htr, hab⟩ := ih (fun d' hd' => hread d' (List.mem_cons_of_mem d hd'))
    rw [runGroups]
    cases h : fs.dirEntries (pjoin srcDir d.name) with
    | none => exact absurd h hd
    | some entries => simp [h, htr, hab]

/-- `traceConverts` distributes over concatenation. -/
theorem traceConverts_append (l₁ l₂ : List Event) :
    traceConverts (l₁ ++ l₂) = traceConverts l₁ ++ traceConverts l₂ := by
  simp [traceConverts]

/-- `traceConverts` distributes over `flatMap`. -/
theorem traceConverts_flatMap {α : Type} (l : List α) (g : α → List Event) :
    traceConverts (l.flatMap g) = l.flatMap (fun a => traceConverts (g a)) := by
  simp [traceConverts, List.filterMap_flatMap]

/-- The converter spawns of one group: one per `.md` entry, on the joined
path, whatever the converter, the API and the status. -/
theorem traceConverts_processGroup (conv : String → Option String)
    (apiOk : ApiCall → Bool) (srcDir status tag : String) (entries : List String) :
    traceConverts (processGroup conv apiOk srcDir status tag entries).1
      = (entries.filter (fun f => jsEndsWith f ".md")).map
          (fun f => pjoin (pjoin srcDir tag) f) := by
  rw [processGroup_fst, traceConverts_flatMap]
  induction entries.filter (fun f => jsEndsWith f ".md") with
  | nil => rfl
  | cons a t ih => rw [List.flatMap_cons, traceConverts_processFile, ih]; simp

/-- The logs of one file's processing, written out by cases. -/
theorem processFile_snd (conv : String → Option String) (apiOk : ApiCall → Bool)
    (tagPath tag status f : String) :
    (processFile conv apiOk tagPath tag status f).2 =
      match conv (pjoin tagPath f) with
      | none => [.convertError (pjoin tagPath f)]
      | some out =>
        if (jsTrim out).isEmpty then []
        else if apiOk (mkCall (parseName f) (jsTrim out) tag status) then []
        else [.publishError (parseName f)] := by
  cases h : conv (pjoin tagPath f) with
  | none => simp [processFile, convertMarkdownToHtml, h]
  | some out =>
    by_cases hemp : (jsTrim out).isEmpty
    · simp [processFile, convertMarkdownToHtml, h, hemp]
    · by_cases hok : apiOk (mkCall (parseName f) (jsTrim out) tag status)
      · simp [processFile, convertMarkdownToHtml, publishPost, h, hemp, hok]
      · simp [processFile, convertMarkdownToHtml, publishPost, h, hemp, hok]

/-- A failed request while processing one file leaves a `publishError`
line with the request's title in that file's logs. -/
theorem processFile_log_of_failed_request {conv : String → Option String}
    {apiOk : ApiCall → Bool} {tagPath tag status f p : String} {c : ApiCall}
    (he : Event.request p c false ∈ (processFile conv apiOk tagPath tag status f).1) :
    LogLine.publishError c.payload.title ∈ (processFile conv apiOk tagPath tag status f).2 := by
  obtain ⟨hp, out, hconv, hne, hc, hok⟩ := processFile_request he
  subst hp
  rw [processFile_snd, hconv]
  have hok' : apiOk (mkCall (parseName f) (jsTrim out) tag status) = false := by
    rw [← hc]
    exact hok.symm
  simp only [hne, hok', Bool.false_eq_true, if_false]
  simp [hc, mkCall]

/-- Unfolding the outer loop at a directory whose listing fails. -/
theorem runGroups_cons_none {fs : FS} {conv : String → Option String}
    {apiOk : ApiCall → Bool} {srcDir status : String} {d : Dirent}
    {rest : List Dirent} (hd : fs.dirEntries (pjoin srcDir d.name) = none) :
    runGroups fs conv apiOk srcDir status (d :: rest)
      = { trace := [], logs := [.fatalDirError], aborted := true } := by
  rw [runGroups, hd]

/-- Unfolding the outer loop at a directory whose listing succeeds. -/
theorem runGroups_cons_some {fs : FS} {conv : String → Option String}
    {apiOk : ApiCall → Bool} {srcDir status : String} {d : Dirent}
    {rest : List Dirent} {entries : List String}
    (hd : fs.dirEntries (pjoin srcDir d.name) = some entries) :
    runGroups fs conv apiOk srcDir status (d :: rest)
      = { trace := (processGroup conv apiOk srcDir status d.name entries).1
            ++ (runGroups fs conv apiOk srcDir status rest).trace
          logs := (processGroup conv apiOk srcDir status d.name entries).2
            ++ (runGroups fs conv apiOk srcDir status rest).logs
          aborted := (runGroups fs conv apiOk srcDir status rest).aborted } := by
  rw [runGroups, hd]

/-- A failed request anywhere in the outer loop leaves a `publishError`
line with the request's title in the loop's logs. -/
theorem runGroups_log_of_failed_request {fs : FS} {conv : String → Option String}
    {apiOk : ApiCall → Bool} {srcDir status p : String} {ds : List Dirent} {c : ApiCall}
    (he : Event.request p c false ∈ (runGroups fs conv apiOk srcDir status ds).trace) :
    LogLine.publishError c.payload.title ∈ (runGroups fs conv apiOk srcDir status ds).logs := by
  induction ds with
  | nil => simp [runGroups] at he
  | cons d rest ih =>
    cases hd : fs.dirEntries (pjoin srcDir d.name) with
    | none => rw [runGroups_cons_none hd] at he; simp at he
    | some entries =>
      rw [runGroups_cons_some hd] at he ⊢
      simp only [List.mem_append] at he ⊢
      rcases he with he | he
      · left
        rw [processGroup_fst] at he
        rw [processGroup_snd]
        rw [List.mem_flatMap] at he ⊢
        obtain ⟨f, hf, hef⟩ := he
        exact ⟨f, hf, processFile_log_of_failed_request hef⟩
      · right
        exact ih he

/-- Filtering a file's events by "path is not `F`" removes everything when
the file's path is `F`... -/
theorem processFile_filter_eq (conv : String → Option String)
    (apiOk : ApiCall → Bool) (tagPath tag status f F : String)
    (hpf : pjoin tagPath f = F) :
    (processFile conv apiOk tagPath tag status f).1.filter
      (fun e => e.path != F) = [] := by
  rw [List.filter_eq_nil_iff]
  intro e he
  simp [processFile_path he, hpf]

/-- ... and keeps everything when it is not. -/
theorem processFile_filter_ne (conv : String → Option String)
    (apiOk : ApiCall → Bool) (tagPath tag status f F : String)
    (hpf : pjoin tagPath f ≠ F) :
    (processFile conv apiOk tagPath tag status f).1.filter
      (fun e => e.path != F)
      = (processFile conv apiOk tagPath tag status f).1 := by
  rw [List.filter_eq_self]
  intro e he
  simp [processFile_path he, hpf]

/-- Changing the converter's outcome at a single path `F` does not change
any event concerning another path: per file... -/
theorem processFile_filter_congr {conv conv' : String → Option String}
    (apiOk : ApiCall → Bool) (tagPath tag status f F : String)
    (hagree : ∀ p, p ≠ F → conv' p = conv p) :
    (processFile conv apiOk tagPath tag status f).1.filter (fun e => e.path != F)
      = (processFile conv' apiOk tagPath tag status f).1.filter
          (fun e => e.path != F) := by
  by_cases hpf : pjoin tagPath f = F
  · rw [processFile_filter_eq conv apiOk tagPath tag status f F hpf,
      processFile_filter_eq conv' apiOk tagPath tag status f F hpf]
  · rw [processFile_congr apiOk tagPath tag status f (hagree _ hpf).symm]

/-- ... and over the whole outer loop, together with the fact that whether
the loop aborts does not depend on the converter at all. -/
theorem runGroups_filter_congr {fs : FS} {conv conv' : String → Option String}
    (apiOk : ApiCall → Bool) (srcDir status F : String) (ds : List Dirent)
    (hagree : ∀ p, p ≠ F → conv' p = conv p) :
    (runGroups fs conv apiOk srcDir status ds).trace.filter (fun e => e.path != F)
      = (runGroups fs conv' apiOk srcDir status ds).trace.filter
          (fun e => e.path != F)
    ∧ (runGroups fs conv apiOk srcDir status ds).aborted
      = (runGroups fs conv' apiOk srcDir status ds).aborted := by
  induction ds with
  | nil => simp [runGroups]
  | cons d rest ih =>
    cases hd : fs.dirEntries (pjoin srcDir d.name) with
    | none => rw [runGroups_cons_none hd, runGroups_cons_none hd]; exact ⟨rfl, rfl⟩
    | some entries =>
      rw [runGroups_cons_some hd, runGroups_cons_some hd]
      refine ⟨?_, ih.2⟩
      simp only [List.filter_append]
      rw [ih.1, processGroup_fst, processGroup_fst]
      simp only [List.filter_flatMap]
      congr 1
      apply List.flatMap_congr  -- pointwise equality of the per-file filters
      intro f hf
      exact processFile_filter_congr apiOk (pjoin srcDir d.name) d.name status f F hagree

/-- Erasing success flags makes a file's events independent of the API
oracle. -/
theorem processFile_shape (conv : String → Option String)
    (apiOk apiOk' : ApiCall → Bool) (tagPath tag status f : String) :
    (processFile conv apiOk tagPath tag status f).1.map eventShape
      = (processFile conv apiOk' tagPath tag status f).1.map eventShape := by
  rw [processFile_fst, processFile_fst]
  cases h : conv (pjoin tagPath f) with
  | none => rfl
  | some out =>
    by_cases hemp : (jsTrim out).isEmpty
    · simp [hemp]
    · simp [hemp, eventShape]

/-- Erasing success flags makes the outer loop's trace independent of the
API oracle: a rejected request triggers no extra request (no retry) and
removes none of the later files' events (the run proceeds). -/
theorem runGroups_shape (fs : FS) (conv : String → Option String)
    (apiOk apiOk' : ApiCall → Bool) (srcDir status : String) (ds : List Dirent) :
    (runGroups fs conv apiOk srcDir status ds).trace.map eventShape
      = (runGroups fs conv apiOk' srcDir status ds).trace.map eventShape := by
  induction ds with
  | nil => simp [runGroups]
  | cons d rest ih =>
    cases hd : fs.dirEntries (pjoin srcDir d.name) with
    | none => rw [runGroups_cons_none hd, runGroups_cons_none hd]
    | some entries =>
      rw [runGroups_cons_some hd, runGroups_cons_some hd]
      simp only [List.map_append]
      rw [ih, processGroup_fst, processGroup_fst]
      simp only [List.map_flatMap]
      congr 1
      apply List.flatMap_congr
      intro f hf
      exact processFile_shape conv apiOk apiOk' (pjoin srcDir d.name) d.name status f

/-- The converter spawns of the outer loop do not depend on the status nor
on the API oracle. -/
theorem traceConverts_runGroups (fs : FS) (conv : String → Option String)
    (apiOk apiOk' : ApiCall → Bool) (srcDir status status' : String)
    (ds : List Dirent) :
    traceConverts (runGroups fs conv apiOk srcDir status ds).trace
      = traceConverts (runGroups fs conv apiOk' srcDir status' ds).trace := by
  induction ds with
  | nil => simp [runGroups]
  | cons d rest ih =>
    cases hd : fs.dirEntries (pjoin srcDir d.name) with
    | none => rw [runGroups_cons_none hd, runGroups_cons_none hd]
    | some entries =>
      rw [runGroups_cons_some hd, runGroups_cons_some hd]
      rw [traceConverts_append, traceConverts_append, ih,
        traceConverts_processGroup, traceConverts_processGroup]

/-- Membership completeness for the outer loop when every listing
succeeds: each `.md` entry's events appear in the trace. -/
theorem mem_runGroups_trace_of {fs : FS} {conv : String → Option String}
    {apiOk : ApiCall → Bool} {srcDir status : String} {ds : List Dirent}
    {d : Dirent} {entries : List String} {f : String} {e : Event}
    (hread : ∀ d' ∈ ds, fs.dirEntries (pjoin srcDir d'.name) ≠ none)
    (hd : d ∈ ds) (hentries : fs.dirEntries (pjoin srcDir d.name) = some entries)
    (hf : f ∈ entries) (hmd : jsEndsWith f ".md" = true)
    (he : e ∈ (processFile conv apiOk (pjoin srcDir d.name) d.name status f).1) :
    e ∈ (runGroups fs conv apiOk srcDir status ds).trace := by
  rw [(runGroups_of_readable hread).1]
  rw [List.mem_flatMap]
  refine ⟨d, hd, ?_⟩
  simp only [hentries]
  rw [processGroup_fst, List.mem_flatMap]
  exact ⟨f, List.mem_filter.mpr ⟨hf, hmd⟩, he⟩

/-- Unfolding a run whose root listing fails: the `catch` logs the fatal
error and nothing at all happens. -/
theorem publishPosts_root_none {dirname : String} {env : Env} {fs : FS}
    {conv : String → Option String} {apiOk : ApiCall → Bool}
    (hroot : fs.rootEntries = none) :
    publishPosts dirname env fs conv apiOk =
      { trace := []
        logs := [.sourceDir (pjoin dirname "src"), .fatalDirError]
        aborted := true } := by
  simp [publishPosts, hroot]

/-- Unfolding a run whose root listing succeeds: the run is the outer loop
over the first-level directories. -/
theorem publishPosts_root_some {dirname : String} {env : Env} {fs : FS}
    {conv : String → Option String} {apiOk : ApiCall → Bool}
    {tagDirs : List Dirent} (hroot : fs.rootEntries = some tagDirs) :
    publishPosts dirname env fs conv apiOk =
      { trace := (runGroups fs conv apiOk (pjoin dirname "src")
            (jsOr env.postStatus "draft") (tagDirs.filter Dirent.isDir)).trace
        logs := .sourceDir (pjoin dirname "src")
          :: (runGroups fs conv apiOk (pjoin dirname "src")
            (jsOr env.postStatus "draft") (tagDirs.filter Dirent.isDir)).logs
        aborted := (runGroups fs conv apiOk (pjoin dirname "src")
            (jsOr env.postStatus "draft") (tagDirs.filter Dirent.isDir)).aborted } := by
  simp [publishPosts, hroot]

/-! ### Claims -/

/-- C1, counterexample.  The claim promises that each published title is
the file's base name with the `.md` extension stripped.  A directory entry
named exactly `.md` passes the `endsWith('.md')` filter, but
`path.parse('.md').name` is `.md` (Node treats a leading dot as part of
the name, not as an extension separator), so the published title is `.md`
while the claim demands the empty string. -/
theorem C1_counterexample :
    jsEndsWith ".md" ".md" = true
    ∧ (requests (publishPosts "/app" envDraft fsDot convDot apiTrue)).map
        (fun c => c.payload.title) = [".md"]
    ∧ specTitle ".md" = ""
    ∧ (".md" : String) ≠ "" := by
  refine ⟨by decide, by decide, by decide, by decide⟩

/-- C1, amended.  Every create-post request of a run is an `add` call with
the `source: html` option, and its payload is exactly
`\x7b title, html, tags: [\x7b name: tag \x7d], status \x7d`, where `tag` is the name
of the file's parent subdirectory, `html` the trimmed converter output,
`status` the run status, and `title` is `path.parse(file).name` — which is
the file's base name with the `.md` extension stripped for every selected
file except one named exactly `.md`, whose title stays `.md`. -/
theorem C1_payload_shape (dirname : String) (env : Env) (fs : FS)
    (conv : String → Option String) (apiOk : ApiCall → Bool)
    (p : String) (c : ApiCall) (ok : Bool)
    (hmem : Event.request p c ok ∈ (publishPosts dirname env fs conv apiOk).trace) :
    c.method = .add ∧ c.source = "html" ∧
    ∃ tagDirs d entries f out,
      fs.rootEntries = some tagDirs ∧ d ∈ tagDirs ∧ d.isDir = true ∧
      fs.dirEntries (pjoin (pjoin dirname "src") d.name) = some entries ∧
      f ∈ entries ∧ jsEndsWith f ".md" = true ∧
      p = pjoin (pjoin (pjoin dirname "src") d.name) f ∧
      conv p = some out ∧
      c.payload = { title := parseName f, html := jsTrim out,
                    tags := [⟨d.name⟩], status := jsOr env.postStatus "draft" } ∧
      (f ≠ ".md" → c.payload.title = specTitle f) := by
  cases hroot : fs.rootEntries with
  | none =>
    rw [publishPosts_root_none hroot] at hmem
    simp at hmem
  | some tagDirs =>
    rw [publishPosts_root_some hroot] at hmem
    obtain ⟨d, hd, entries, hentries, f, hf, hmd, hef⟩ := mem_runGroups_trace hmem
    obtain ⟨hp, out, hconv, hne, hc, hok⟩ := processFile_request hef
    obtain ⟨hdmem, hdir⟩ := List.mem_filter.mp hd
    subst hc
    refine ⟨rfl, rfl, tagDirs, d, entries, f, out, rfl, hdmem, hdir,
      hentries, hf, hmd, hp, hconv, rfl, ?_⟩
    intro hfne
    exact parseName_eq_specTitle f hmd hfne

/-- C1, witness: the amended statement evaluated on a one-file run. -/
theorem C1_payload_shape_witness :
    (mkCall "post1" "<p>one</p>" "tagA" "draft").method = .add
    ∧ (mkCall "post1" "<p>one</p>" "tagA" "draft").source = "html"
    ∧ ∃ tagDirs d entries f out,
      fsOne.rootEntries = some tagDirs ∧ d ∈ tagDirs ∧ d.isDir = true ∧
      fsOne.dirEntries (pjoin (pjoin "/app" "src") d.name) = some entries ∧
      f ∈ entries ∧ jsEndsWith f ".md" = true ∧
      "/app/src/tagA/post1.md" = pjoin (pjoin (pjoin "/app" "src") d.name) f ∧
      convOne "/app/src/tagA/post1.md" = some out ∧
      (mkCall "post1" "<p>one</p>" "tagA" "draft").payload
        = { title := parseName f, html := jsTrim out,
            tags := [⟨d.name⟩], status := jsOr envDraft.postStatus "draft" } ∧
      (f ≠ ".md" → (mkCall "post1" "<p>one</p>" "tagA" "draft").payload.title
        = specTitle f) :=
  C1_payload_shape "/app" envDraft fsOne convOne apiTrue
    "/app/src/tagA/post1.md" (mkCall "post1" "<p>one</p>" "tagA" "draft") true
    (by decide)

/-- A request event's path is a path on which the converter succeeded. -/
theorem request_conv_some {dirname : String} {env : Env} {fs : FS}
    {conv : String → Option String} {apiOk : ApiCall → Bool}
    {p : String} {c : ApiCall} {ok : Bool}
    (hmem : Event.request p c ok ∈ (publishPosts dirname env fs conv apiOk).trace) :
    ∃ out, conv p = some out := by
  cases hroot : fs.rootEntries with
  | none =>
    rw [publishPosts_root_none hroot] at hmem
    simp at hmem
  | some tagDirs =>
    rw [publishPosts_root_some hroot] at hmem
    obtain ⟨d, hd, entries, hentries, f, hf, hmd, hef⟩ := mem_runGroups_trace hmem
    obtain ⟨hp, out, hconv, _⟩ := processFile_request hef
    exact ⟨out, hconv⟩

/-- C2.  If the converter fails on a file `F` (null `htmlBody`), the run
issues no request for `F`; and the events of every other file — under any
other converter outcome for `F`, e.g. one where `F` converts fine — are
identical, so the skip affects `F` alone and the rest of the run,
including whether it aborts, is untouched. -/
theorem C2_conversion_failure_skips_only_F (dirname : String) (env : Env)
    (fs : FS) (conv conv' : String → Option String) (apiOk : ApiCall → Bool)
    (F : String) (hF : conv F = none)
    (hagree : ∀ p, p ≠ F → conv' p = conv p) :
    (∀ c ok, Event.request F c ok ∉ (publishPosts dirname env fs conv apiOk).trace)
    ∧ (publishPosts dirname env fs conv apiOk).trace.filter (fun e => e.path != F)
      = (publishPosts dirname env fs conv' apiOk).trace.filter (fun e => e.path != F)
    ∧ (publishPosts dirname env fs conv apiOk).aborted
      = (publishPosts dirname env fs conv' apiOk).aborted := by
  refine ⟨?_, ?_, ?_⟩
  · intro c ok hmem
    obtain ⟨out, hconv⟩ := request_conv_some hmem
    rw [hF] at hconv
    exact Option.noConfusion hconv
  · cases hroot : fs.rootEntries with
    | none => rw [publishPosts_root_none hroot, publishPosts_root_none hroot]
    | some tagDirs =>
      rw [publishPosts_root_some hroot, publishPosts_root_some hroot]
      exact (runGroups_filter_congr apiOk (pjoin dirname "src")
        (jsOr env.postStatus "draft") F (tagDirs.filter Dirent.isDir) hagree).1
  · cases hroot : fs.rootEntries with
    | none => rw [publishPosts_root_none hroot, publishPosts_root_none hroot]
    | some tagDirs =>
      rw [publishPosts_root_some hroot, publishPosts_root_some hroot]
      exact (runGroups_filter_congr apiOk (pjoin dirname "src")
        (jsOr env.postStatus "draft") F (tagDirs.filter Dirent.isDir) hagree).2

/-- C2, witness: a run with a failing `bad.md` and a good `good.md`,
compared with the run where `bad.md` converts fine. -/
theorem C2_witness :
    (∀ c ok, Event.request "/app/src/tagA/bad.md" c ok
      ∉ (publishPosts "/app" envDraft fsTwo convTwo apiTrue).trace)
    ∧ (publishPosts "/app" envDraft fsTwo convTwo apiTrue).trace.filter
        (fun e => e.path != "/app/src/tagA/bad.md")
      = (publishPosts "/app" envDraft fsTwo convTwoAll apiTrue).trace.filter
        (fun e => e.path != "/app/src/tagA/bad.md")
    ∧ (publishPosts "/app" envDraft fsTwo convTwo apiTrue).aborted
      = (publishPosts "/app" envDraft fsTwo convTwoAll apiTrue).aborted :=
  C2_conversion_failure_skips_only_F "/app" envDraft fsTwo convTwo convTwoAll
    apiTrue "/app/src/tagA/bad.md" (by decide)
    (fun p hp => by unfold convTwoAll convTwo; rw [if_neg hp])

/-- C3.  A failed create-post request is logged (a `publishError` line
with the post's title), and the API's answers change nothing else about
the run: erasing the success flags, the trace under any other API oracle —
in particular the all-success one — is identical, so no retry request is
ever added, every later file is still processed, and the batch is never
aborted by a failed post.  The process still exits 0. -/
theorem C3_publish_failure_logged_run_continues (dirname : String) (env : Env)
    (fs : FS) (conv : String → Option String) (apiOk apiOk' : ApiCall → Bool)
    (p : String) (c : ApiCall)
    (hmem : Event.request p c false ∈ (publishPosts dirname env fs conv apiOk).trace) :
    (publishPosts dirname env fs conv apiOk).trace.map eventShape
      = (publishPosts dirname env fs conv apiOk').trace.map eventShape
    ∧ (mainRun dirname env fs conv apiOk).2 = 0
    ∧ LogLine.publishError c.payload.title
      ∈ (publishPosts dirname env fs conv apiOk).logs := by
  refine ⟨?_, rfl, ?_⟩
  · cases hroot : fs.rootEntries with
    | none => rw [publishPosts_root_none hroot, publishPosts_root_none hroot]
    | some tagDirs =>
      rw [publishPosts_root_some hroot, publishPosts_root_some hroot]
      exact runGroups_shape fs conv apiOk apiOk' (pjoin dirname "src")
        (jsOr env.postStatus "draft") (tagDirs.filter Dirent.isDir)
  · cases hroot : fs.rootEntries with
    | none =>
      rw [publishPosts_root_none hroot] at hmem
      simp at hmem
    | some tagDirs =>
      rw [publishPosts_root_some hroot] at hmem ⊢
      exact List.mem_cons_of_mem _ (runGroups_log_of_failed_request hmem)

/-- C3, witness: a one-file run whose only request is rejected. -/
theorem C3_witness :
    (publishPosts "/app" envDraft fsOne convOne apiFalse).trace.map eventShape
      = (publishPosts "/app" envDraft fsOne convOne apiTrue).trace.map eventShape
    ∧ (mainRun "/app" envDraft fsOne convOne apiFalse).2 = 0
    ∧ LogLine.publishError (mkCall "post1" "<p>one</p>" "tagA" "draft").payload.title
      ∈ (publishPosts "/app" envDraft fsOne convOne apiFalse).logs :=
  C3_publish_failure_logged_run_continues "/app" envDraft fsOne convOne
    apiFalse apiTrue "/app/src/tagA/post1.md"
    (mkCall "post1" "<p>one</p>" "tagA" "draft") (by decide)

/-- C4.  An unreadable listing aborts the whole run.  For the content
root: the run does nothing but log the fatal error.  For a TagGroup
directory `d`: the outer loop's outcome no longer depends on anything
after `d` (so no later group is processed and no further request made),
the loop ends aborted, and the failing group itself contributes nothing
(it is aborted into the `catch`, not skipped).  The last conjunct ties the
outer loop to the run over the root's first-level directories. -/
theorem C4_directory_unreadable_aborts (dirname : String) (env : Env) (fs : FS)
    (conv : String → Option String) (apiOk : ApiCall → Bool)
    (srcDir status : String) (ds₁ : List Dirent) (d : Dirent)
    (ds₂ ds₂' : List Dirent) (es : List Dirent)
    (hfail : fs.dirEntries (pjoin srcDir d.name) = none)
    (hroot : fs.rootEntries = some es) :
    ((publishPosts dirname env ⟨none, fs.dirEntries⟩ conv apiOk).trace = []
      ∧ (publishPosts dirname env ⟨none, fs.dirEntries⟩ conv apiOk).aborted = true
      ∧ LogLine.fatalDirError
        ∈ (publishPosts dirname env ⟨none, fs.dirEntries⟩ conv apiOk).logs)
    ∧ runGroups fs conv apiOk srcDir status (ds₁ ++ d :: ds₂)
      = runGroups fs conv apiOk srcDir status (ds₁ ++ d :: ds₂')
    ∧ (runGroups fs conv apiOk srcDir status (ds₁ ++ d :: ds₂)).aborted = true
    ∧ (publishPosts dirname env fs conv apiOk).trace
      = (runGroups fs conv apiOk (pjoin dirname "src")
          (jsOr env.postStatus "draft") (es.filter Dirent.isDir)).trace := by
  refine ⟨⟨?_, ?_, ?_⟩, ?_, ?_, ?_⟩
  · rw [publishPosts_root_none rfl]
  · rw [publishPosts_root_none rfl]
  · rw [publishPosts_root_none rfl]
    simp
  · exact runGroups_append_fail fs conv apiOk srcDir status ds₁ d ds₂ ds₂' hfail
  · exact runGroups_aborted_of_fail
      (List.mem_append.mpr (Or.inr (List.mem_cons_self d ds₂))) hfail
  · rw [publishPosts_root_some hroot]

/-- C4, witness: a two-group root where listing `tagA` fails before
`tagB` is reached. -/
theorem C4_witness :
    ((publishPosts "/app" envDraft ⟨none, fsFailA.dirEntries⟩ convB apiTrue).trace = []
      ∧ (publishPosts "/app" envDraft ⟨none, fsFailA.dirEntries⟩ convB apiTrue).aborted = true
      ∧ LogLine.fatalDirError
        ∈ (publishPosts "/app" envDraft ⟨none, fsFailA.dirEntries⟩ convB apiTrue).logs)
    ∧ runGroups fsFailA convB apiTrue "/app/src" "draft"
        ([] ++ ⟨"tagA", true⟩ :: [⟨"tagB", true⟩])
      = runGroups fsFailA convB apiTrue "/app/src" "draft"
        ([] ++ ⟨"tagA", true⟩ :: [])
    ∧ (runGroups fsFailA convB apiTrue "/app/src" "draft"
        ([] ++ ⟨"tagA", true⟩ :: [⟨"tagB", true⟩])).aborted = true
    ∧ (publishPosts "/app" envDraft fsFailA convB apiTrue).trace
      = (runGroups fsFailA convB apiTrue (pjoin "/app" "src")
          (jsOr envDraft.postStatus "draft")
          ([⟨"tagA", true⟩, ⟨"tagB", true⟩].filter Dirent.isDir)).trace :=
  C4_directory_unreadable_aborts "/app" envDraft fsFailA convB apiTrue
    "/app/src" "draft" [] ⟨"tagA", true⟩ [⟨"tagB", true⟩] []
    [⟨"tagA", true⟩, ⟨"tagB", true⟩] (by decide) rfl

/-- A request of a run comes from a request event in the run's trace. -/
theorem mem_requests {r : RunOutput} {c : ApiCall} (hc : c ∈ requests r) :
    ∃ p ok, Event.request p c ok ∈ r.trace := by
  simp only [requests, traceRequests, List.mem_filterMap] at hc
  obtain ⟨e, he, hme⟩ := hc
  cases e with
  | convert p => simp at hme
  | request p c' ok =>
    simp at hme
    subst hme
    exact ⟨p, ok, he⟩

/-- C5, counterexample.  The claim promises that the status equals the
`POST_STATUS` environment value whenever it is set.  `POST_STATUS` set to
the empty string is set, yet JS `||` treats it as falsy, so the run
publishes with status `draft`, not `""`. -/
theorem C5_counterexample :
    envEmptyStatus.postStatus = some ""
    ∧ (requests (publishPosts "/app" envEmptyStatus fsOne convOne apiTrue)).map
        (fun c => c.payload.status) = ["draft"]
    ∧ ("draft" : String) ≠ "" := by
  refine ⟨rfl, by decide, by decide⟩

/-- C5, amended.  Every post created in a single run carries the same
status, computed once per run as `POST_STATUS || 'draft'`: the
`POST_STATUS` value when it is set to a non-empty string, and `draft`
when it is unset or set to the empty string; it is not configurable per
file. -/
theorem C5_status_uniform (dirname : String) (env : Env) (fs : FS)
    (conv : String → Option String) (apiOk : ApiCall → Bool) (c : ApiCall)
    (hc : c ∈ requests (publishPosts dirname env fs conv apiOk)) :
    c.payload.status = jsOr env.postStatus "draft" := by
  obtain ⟨p, ok, hmem⟩ := mem_requests hc
  cases hroot : fs.rootEntries with
  | none =>
    rw [publishPosts_root_none hroot] at hmem
    simp at hmem
  | some tagDirs =>
    rw [publishPosts_root_some hroot] at hmem
    obtain ⟨d, hd, entries, hentries, f, hf, hmd, hef⟩ := mem_runGroups_trace hmem
    obtain ⟨hp, out, hconv, hne, hcall, hok⟩ := processFile_request hef
    rw [hcall]
    rfl

/-- C5, witness: the amended statement on a run with `POST_STATUS` unset. -/
theorem C5_status_uniform_witness :
    (mkCall "post1" "<p>one</p>" "tagA" "draft").payload.status
      = jsOr envDraft.postStatus "draft" :=
  C5_status_uniform "/app" envDraft fsOne convOne apiTrue
    (mkCall "post1" "<p>one</p>" "tagA" "draft") (by decide)

/-- C6.  Under a readable layout, the files the run hands to the converter
are exactly those of the spec's Scanner contract: the entries directly
inside each first-level subdirectory whose names end in `.md`, joined to
that subdirectory's path, with no recursion into anything deeper; and the
`.md` test is an exact, case-sensitive comparison of the last three
characters (so e.g. `A.MD` is never selected). -/
theorem C6_scanner_refines_spec (dirname : String) (env : Env) (fs : FS)
    (conv : String → Option String) (apiOk : ApiCall → Bool)
    (es : List Dirent) (f₀ : String)
    (hroot : fs.rootEntries = some es)
    (hread : ∀ d ∈ es.filter Dirent.isDir,
      fs.dirEntries (pjoin (pjoin dirname "src") d.name) ≠ none) :
    convertedPaths (publishPosts dirname env fs conv apiOk)
      = specScanMdPaths fs (pjoin dirname "src")
    ∧ (jsEndsWith f₀ ".md" = true ↔ ∃ g : List Char, f₀.data = g ++ ['.', 'm', 'd']) := by
  refine ⟨?_, jsEndsWith_md_iff f₀⟩
  rw [publishPosts_root_some hroot]
  show traceConverts _ = _
  rw [(runGroups_of_readable hread).1, traceConverts_flatMap]
  simp only [specScanMdPaths, hroot]
  apply List.flatMap_congr
  intro d hd
  cases h : fs.dirEntries (pjoin (pjoin dirname "src") d.name) with
  | none => simp [traceConverts]
  | some entries =>
    simp only
    rw [traceConverts_processGroup]

/-- C6, witness: the refinement on a one-file layout, with the
case-sensitivity clause instantiated at `A.MD`. -/
theorem C6_witness :
    convertedPaths (publishPosts "/app" envDraft fsOne convOne apiTrue)
      = specScanMdPaths fsOne (pjoin "/app" "src")
    ∧ (jsEndsWith "A.MD" ".md" = true
      ↔ ∃ g : List Char, ("A.MD" : String).data = g ++ ['.', 'm', 'd']) :=
  C6_scanner_refines_spec "/app" envDraft fsOne convOne apiTrue
    [⟨"tagA", true⟩] "A.MD" rfl (by decide)

/-- A request event in the trace puts its call among the run's requests. -/
theorem mem_requests_of_event {r : RunOutput} {p : String} {c : ApiCall}
    {ok : Bool} (hmem : Event.request p c ok ∈ r.trace) : c ∈ requests r := by
  simp only [requests, traceRequests, List.mem_filterMap]
  exact ⟨Event.request p c ok, hmem, rfl⟩

/-- C7, counterexample.  The claim says the set of tags produced equals
the set of first-level subdirectory names, whatever the layout.  A root
whose only subdirectory `tagA` is empty produces no request at all, so no
tag — yet `tagA` is a first-level subdirectory name. -/
theorem C7_counterexample :
    fsEmptyDir.rootEntries = some [⟨"tagA", true⟩]
    ∧ requestTags (publishPosts "/app" envDraft fsEmptyDir convOne apiTrue) = []
    ∧ "tagA" ∉ requestTags (publishPosts "/app" envDraft fsEmptyDir convOne apiTrue) := by
  refine ⟨rfl, by decide, by decide⟩

/-- C7, amended.  Under a readable layout, the set of tags attached to the
run's create-post requests equals the set of names of those first-level
subdirectories that contain at least one `.md` entry whose conversion
succeeds with non-whitespace output.  In particular it is a subset of the
first-level subdirectory names, but empty or all-failing subdirectories
contribute no tag, so the two sets can differ. -/
theorem C7_tags (dirname : String) (env : Env) (fs : FS)
    (conv : String → Option String) (apiOk : ApiCall → Bool)
    (es : List Dirent) (t : String)
    (hroot : fs.rootEntries = some es)
    (hread : ∀ d ∈ es.filter Dirent.isDir,
      fs.dirEntries (pjoin (pjoin dirname "src") d.name) ≠ none) :
    t ∈ requestTags (publishPosts dirname env fs conv apiOk)
      ↔ ∃ d ∈ es.filter Dirent.isDir, d.name = t ∧
          ∃ entries f out,
            fs.dirEntries (pjoin (pjoin dirname "src") d.name) = some entries
            ∧ f ∈ entries ∧ jsEndsWith f ".md" = true
            ∧ conv (pjoin (pjoin (pjoin dirname "src") d.name) f) = some out
            ∧ (jsTrim out).isEmpty = false := by
  constructor
  · intro ht
    simp only [requestTags, List.mem_flatMap, List.mem_map] at ht
    obtain ⟨c, hc, tr, htr, hname⟩ := ht
    obtain ⟨p, ok, hmem⟩ := mem_requests hc
    rw [publishPosts_root_some hroot] at hmem
    obtain ⟨d, hd, entries, hentries, f, hf, hmd, hef⟩ := mem_runGroups_trace hmem
    obtain ⟨hp, out, hconv, hne, hcall, hok⟩ := processFile_request hef
    refine ⟨d, hd, ?_, entries, f, out, hentries, hf, hmd, by rwa [← hp], hne⟩
    rw [hcall] at htr
    simp [mkCall] at htr
    rw [← hname, htr]
  · rintro ⟨d, hd, hname, entries, f, out, hentries, hf, hmd, hconv, hne⟩
    have hev := processFile_request_mem conv apiOk (pjoin (pjoin dirname "src") d.name)
      d.name (jsOr env.postStatus "draft") f out hconv hne
    have hin := mem_runGroups_trace_of hread hd hentries hf hmd hev
    rw [publishPosts_root_some hroot]
    simp only [requestTags, requests, List.mem_flatMap]
    refine ⟨mkCall (parseName f) (jsTrim out) d.name (jsOr env.postStatus "draft"),
      ?_, ?_⟩
    · simp only [traceRequests, List.mem_filterMap]
      exact ⟨_, hin, rfl⟩
    · simp [mkCall, hname]

/-- C7, witness: the amended statement instantiated at the one-file layout
and its tag `tagA`. -/
theorem C7_witness :
    "tagA" ∈ requestTags (publishPosts "/app" envDraft fsOne convOne apiTrue)
      ↔ ∃ d ∈ [Dirent.mk "tagA" true].filter Dirent.isDir, d.name = "tagA" ∧
          ∃ entries f out,
            fsOne.dirEntries (pjoin (pjoin "/app" "src") d.name) = some entries
            ∧ f ∈ entries ∧ jsEndsWith f ".md" = true
            ∧ convOne (pjoin (pjoin (pjoin "/app" "src") d.name) f) = some out
            ∧ (jsTrim out).isEmpty = false :=
  C7_tags "/app" envDraft fsOne convOne apiTrue [⟨"tagA", true⟩] "tagA"
    rfl (by decide)

/-- C8.  Every request the program issues is a create (`posts.add`) call —
never edit, browse or delete — and a run is a pure function of its inputs
with no prior-publication state consulted: executing the program twice on
the same, unchanged inputs performs exactly the run's trace twice, hence
the same create-post requests again (duplicate posts). -/
theorem C8_only_creates_rerun_duplicates (dirname : String) (env : Env)
    (fs : FS) (conv : String → Option String) (apiOk : ApiCall → Bool)
    (p : String) (c : ApiCall) (ok : Bool)
    (hmem : Event.request p c ok ∈ (publishPosts dirname env fs conv apiOk).trace) :
    c.method = .add
    ∧ (mainRunTwice dirname env fs conv apiOk).1
      = (publishPosts dirname env fs conv apiOk).trace
        ++ (publishPosts dirname env fs conv apiOk).trace
    ∧ traceRequests (mainRunTwice dirname env fs conv apiOk).1
      = requests (publishPosts dirname env fs conv apiOk)
        ++ requests (publishPosts dirname env fs conv apiOk)
    ∧ (mainRunTwice dirname env fs conv apiOk).2 = 0 := by
  refine ⟨?_, rfl, ?_, rfl⟩
  · cases hroot : fs.rootEntries with
    | none =>
      rw [publishPosts_root_none hroot] at hmem
      simp at hmem
    | some tagDirs =>
      rw [publishPosts_root_some hroot] at hmem
      obtain ⟨d, hd, entries, hentries, f, hf, hmd, hef⟩ := mem_runGroups_trace hmem
      obtain ⟨hp, out, hconv, hne, hcall, hok⟩ := processFile_request hef
      rw [hcall]
      rfl
  · show traceRequests ((publishPosts dirname env fs conv apiOk).trace
      ++ (publishPosts dirname env fs conv apiOk).trace) = _
    simp only [traceRequests, List.filterMap_append]
    rfl

/-- C8, witness: the statement on the one-file layout. -/
theorem C8_witness :
    (mkCall "post1" "<p>one</p>" "tagA" "draft").method = .add
    ∧ (mainRunTwice "/app" envDraft fsOne convOne apiTrue).1
      = (publishPosts "/app" envDraft fsOne convOne apiTrue).trace
        ++ (publishPosts "/app" envDraft fsOne convOne apiTrue).trace
    ∧ traceRequests (mainRunTwice "/app" envDraft fsOne convOne apiTrue).1
      = requests (publishPosts "/app" envDraft fsOne convOne apiTrue)
        ++ requests (publishPosts "/app" envDraft fsOne convOne apiTrue)
    ∧ (mainRunTwice "/app" envDraft fsOne convOne apiTrue).2 = 0 :=
  C8_only_creates_rerun_duplicates "/app" envDraft fsOne convOne apiTrue
    "/app/src/tagA/post1.md" (mkCall "post1" "<p>one</p>" "tagA" "draft") true
    (by decide)

/-- C9, counterexample.  The claim says the scanned content root is a
configuration value: for every configured root, the run scans it.  But the
script always scans `path.resolve(__dirname, 'src')`: with every
environment variable set to `/content`, the run still scans `/app/src`,
exactly as with a completely different configuration. -/
theorem C9_counterexample :
    envDraft ≠ envContent
    ∧ (publishPosts "/app" envDraft fsOne convOne apiTrue).logs.head?
      = some (.sourceDir "/app/src")
    ∧ (publishPosts "/app" envContent fsOne convOne apiTrue).logs.head?
      = some (.sourceDir "/app/src")
    ∧ envContent.postStatus = some "/content"
    ∧ ("/app/src" : String) ≠ "/content" := by
  refine ⟨by decide, by decide, by decide, rfl, by decide⟩

/-- C9, amended.  The content root is not configurable: every run scans
the fixed directory `src` next to the script (`path.resolve(__dirname,
'src')`), whatever the environment, and the set of files handed to the
converter is likewise independent of the environment. -/
theorem C9_root_is_fixed (dirname : String) (env env' : Env) (fs : FS)
    (conv : String → Option String) (apiOk : ApiCall → Bool) :
    (publishPosts dirname env fs conv apiOk).logs.head?
      = some (.sourceDir (pjoin dirname "src"))
    ∧ convertedPaths (publishPosts dirname env fs conv apiOk)
      = convertedPaths (publishPosts dirname env' fs conv apiOk) := by
  constructor
  · cases hroot : fs.rootEntries with
    | none => rw [publishPosts_root_none hroot]; rfl
    | some tagDirs => rw [publishPosts_root_some hroot]; rfl
  · cases hroot : fs.rootEntries with
    | none => rw [publishPosts_root_none hroot, publishPosts_root_none hroot]
    | some tagDirs =>
      rw [publishPosts_root_some hroot, publishPosts_root_some hroot]
      show traceConverts _ = traceConverts _
      exact traceConverts_runGroups fs conv apiOk apiOk (pjoin dirname "src")
        (jsOr env.postStatus "draft") (jsOr env'.postStatus "draft")
        (tagDirs.filter Dirent.isDir)

/-- A request event's payload body is the trimmed converter output of its
path, and that trimmed output is not empty. -/
theorem request_html_trimmed {dirname : String} {env : Env} {fs : FS}
    {conv : String → Option String} {apiOk : ApiCall → Bool}
    {p : String} {c : ApiCall} {ok : Bool}
    (hmem : Event.request p c ok ∈ (publishPosts dirname env fs conv apiOk).trace) :
    ∃ out, conv p = some out ∧ (jsTrim out).isEmpty = false
      ∧ c.payload.html = jsTrim out := by
  cases hroot : fs.rootEntries with
  | none =>
    rw [publishPosts_root_none hroot] at hmem
    simp at hmem
  | some tagDirs =>
    rw [publishPosts_root_some hroot] at hmem
    obtain ⟨d, hd, entries, hentries, f, hf, hmd, hef⟩ := mem_runGroups_trace hmem
    obtain ⟨hp, out, hconv, hne, hcall, hok⟩ := processFile_request hef
    exact ⟨out, hconv, hne, by rw [hcall]; rfl⟩

/-- C10.  The published body is the converter's stdout with leading and
trailing whitespace stripped; and a conversion that succeeds with empty or
whitespace-only output is treated exactly like a failed one: no request is
issued for that file (`if (htmlData)` is falsy on the empty string), while
all other files' events — compared with a run where that file converts to
real content — are identical, and whether the run aborts is unchanged. -/
theorem C10_trimmed_and_blank_skipped (dirname : String) (env : Env) (fs : FS)
    (conv conv' : String → Option String) (apiOk : ApiCall → Bool)
    (F out : String) (p' : String) (c' : ApiCall) (ok' : Bool)
    (hF : conv F = some out) (hempty : (jsTrim out).isEmpty = true)
    (hagree : ∀ p, p ≠ F → conv' p = conv p)
    (hmem : Event.request p' c' ok' ∈ (publishPosts dirname env fs conv apiOk).trace) :
    (∀ c ok, Event.request F c ok ∉ (publishPosts dirname env fs conv apiOk).trace)
    ∧ (publishPosts dirname env fs conv apiOk).trace.filter (fun e => e.path != F)
      = (publishPosts dirname env fs conv' apiOk).trace.filter (fun e => e.path != F)
    ∧ (publishPosts dirname env fs conv apiOk).aborted
      = (publishPosts dirname env fs conv' apiOk).aborted
    ∧ ∃ o, conv p' = some o ∧ c'.payload.html = jsTrim o
      ∧ (jsTrim o).isEmpty = false := by
  refine ⟨?_, ?_, ?_, ?_⟩
  · intro c ok hFmem
    obtain ⟨o, ho, hone, _⟩ := request_html_trimmed hFmem
    rw [hF] at ho
    obtain rfl : out = o := Option.some.inj ho
    rw [hempty] at hone
    exact Bool.noConfusion hone
  · cases hroot : fs.rootEntries with
    | none => rw [publishPosts_root_none hroot, publishPosts_root_none hroot]
    | some tagDirs =>
      rw [publishPosts_root_some hroot, publishPosts_root_some hroot]
      exact (runGroups_filter_congr apiOk (pjoin dirname "src")
        (jsOr env.postStatus "draft") F (tagDirs.filter Dirent.isDir) hagree).1
  · cases hroot : fs.rootEntries with
    | none => rw [publishPosts_root_none hroot, publishPosts_root_none hroot]
    | some tagDirs =>
      rw [publishPosts_root_some hroot, publishPosts_root_some hroot]
      exact (runGroups_filter_congr apiOk (pjoin dirname "src")
        (jsOr env.postStatus "draft") F (tagDirs.filter Dirent.isDir) hagree).2
  · obtain ⟨o, ho, hone, hhtml⟩ := request_html_trimmed hmem
    exact ⟨o, ho, hhtml, hone⟩

/-- C10, witness: `bad.md` converts to whitespace-only output and is
skipped; `good.md` is published with trimmed body. -/
theorem C10_witness :
    (∀ c ok, Event.request "/app/src/tagA/bad.md" c ok
      ∉ (publishPosts "/app" envDraft fsTwo convTwoWs apiTrue).trace)
    ∧ (publishPosts "/app" envDraft fsTwo convTwoWs apiTrue).trace.filter
        (fun e => e.path != "/app/src/tagA/bad.md")
      = (publishPosts "/app" envDraft fsTwo convTwoAll apiTrue).trace.filter
        (fun e => e.path != "/app/src/tagA/bad.md")
    ∧ (publishPosts "/app" envDraft fsTwo convTwoWs apiTrue).aborted
      = (publishPosts "/app" envDraft fsTwo convTwoAll apiTrue).aborted
    ∧ ∃ o, convTwoWs "/app/src/tagA/good.md" = some o
      ∧ (mkCall "good" "<p>good</p>" "tagA" "draft").payload.html = jsTrim o
      ∧ (jsTrim o).isEmpty = false :=
  C10_trimmed_and_blank_skipped "/app" envDraft fsTwo convTwoWs convTwoAll
    apiTrue "/app/src/tagA/bad.md" " \n\t " "/app/src/tagA/good.md"
    (mkCall "good" "<p>good</p>" "tagA" "draft") true
    (by decide) (by decide)
    (fun p hp => by unfold convTwoAll convTwoWs; simp only [if_neg hp])
    (by decide)
